import Mathlib

/-!
Verification of the parallel backup/synchronization subsystem of
`gitnav.py` (GitNav v0.0.4).

The development shallowly embeds the core of the source file:

* `BackupManager.load_metadata`, `BackupManager.is_repo_cloned`,
  `BackupManager.get_user_backup_dir`, `BackupManager.get_repo_info`,
  `BackupManager.update_repo_info`;
* the executors `clone_repo_with_progress` and `update_repo` (the external
  `git` process is abstracted by a `ProcResult` value: either the process
  could not be started at all, or it exited with a code);
* the batch drivers `backup_all_repos` and `update_all_cloned_repos`, and
  the orchestrator `sync_backup`.

The filesystem is modelled per owner: whether `backup_dir/username` exists
and the list of directory entries inside it (each with its name, whether it
is a directory and whether it contains the `.git` marker).  The metadata
store is an insertion-ordered association list keyed by `"owner/name"`,
mirroring the Python dict.  `ThreadPoolExecutor` completion order is
arbitrary in the source; the fold below processes completions in list
order, which is one admissible schedule, and the theorems that depend on
order independence carry a `Nodup` hypothesis on the repository names (the
remote directory provider guarantees names are unique per owner).
-/

namespace GitNav

/-- A remote repository descriptor, the fields of the GitHub API response
that the backup core reads (`name`, `clone_url`, `size`, `language`,
`description`).  `language` and `description` may be JSON `null`, hence
`Option`. -/
structure Repo where
  name : String
  clone_url : String
  size : Nat
  language : Option String
  description : Option String
deriving Repr, DecidableEq

/-- One entry of the owner's backup directory: its name, whether it is a
directory, and whether `entry/.git` exists (the version-control marker). -/
structure DirEntry where
  name : String
  isDir : Bool
  hasGit : Bool
deriving Repr, DecidableEq

/-- The owner's slice of the filesystem: whether `backup_dir/username`
exists, and its entries. -/
structure FS where
  userDirExists : Bool
  entries : List DirEntry
deriving Repr, DecidableEq

/-- A backup record, the value stored in the metadata JSON under
`"owner/name"` (gitnav.py lines 403-410).  Every field is optional because
the record is a JSON object built incrementally: an update on a repository
with no prior record starts from the empty dict. -/
structure RepoInfo where
  cloned_at : Option String
  last_updated : Option String
  size : Option Nat
  language : Option String
  description : Option String
  clone_url : Option String
deriving Repr, DecidableEq

/-- The empty record: `self.metadata.get(key, {})` when the key is absent. -/
def RepoInfo.empty : RepoInfo := ⟨none, none, none, none, none, none⟩

/-- The metadata store: an insertion-ordered map from `"owner/name"` keys to
records, mirroring the Python dict `self.metadata`. -/
abbrev Metadata := List (String × RepoInfo)

/-- Dict lookup: `self.metadata.get(key)`. -/
def lookupMeta : Metadata → String → Option RepoInfo
  | [], _ => none
  | p :: rest, k => if p.1 = k then some p.2 else lookupMeta rest k

/-- Dict assignment `self.metadata[key] = info`: replace the existing
binding or append a new one. -/
def insertMeta : Metadata → String → RepoInfo → Metadata
  | [], k, v => [(k, v)]
  | p :: rest, k, v => if p.1 = k then (k, v) :: rest else p :: insertMeta rest k v

/-- The metadata key `f"{username}/{repo_name}"` (gitnav.py lines 175, 180). -/
def mkKey (u n : String) : String := u ++ "/" ++ n

/-- The whole state the core mutates: the owner's filesystem slice and the
metadata store (kept in memory and written through to disk on every
`update_repo_info`, so one component models both). -/
structure State where
  fs : FS
  metadata : Metadata
deriving Repr, DecidableEq

/-- `BackupManager.get_user_backup_dir` (lines 162-166): `mkdir(parents=True,
exist_ok=True)` on `backup_dir/username`, so the directory exists afterwards
and nothing else changes. -/
def get_user_backup_dir (s : State) : State :=
  { s with fs := { s.fs with userDirExists := true } }

/-- Look up a directory entry by name: `path.exists()` for
`backup_dir/username/n` is `(entryFor es n).isSome`. -/
def entryFor : List DirEntry → String → Option DirEntry
  | [], _ => none
  | e :: rest, n => if e.name = n then some e else entryFor rest n

/-- The value computed by `BackupManager.is_repo_cloned` (line 171):
`repo_path.exists() and (repo_path / '.git').exists()`. -/
def is_repo_cloned_val (fs : FS) (n : String) : Bool :=
  match entryFor fs.entries n with
  | some e => e.hasGit
  | none => false

/-- `BackupManager.is_repo_cloned` (lines 168-171): it first calls
`get_user_backup_dir` — which creates `backup_dir/username` — and then reads
the filesystem.  Returns the answer together with the post-state. -/
def is_repo_cloned (s : State) (n : String) : Bool × State :=
  let s1 := get_user_backup_dir s
  (is_repo_cloned_val s1.fs n, s1)

/-- `BackupManager.get_repo_info` (lines 173-176): `self.metadata.get(key, {})`. -/
def get_repo_info (u n : String) (s : State) : RepoInfo :=
  (lookupMeta s.metadata (mkKey u n)).getD RepoInfo.empty

/-- `BackupManager.update_repo_info` (lines 178-182): dict assignment at
`"username/repo_name"` followed by an immediate `save_metadata`. -/
def update_repo_info (u n : String) (info : RepoInfo) (s : State) : State :=
  { s with metadata := insertMeta s.metadata (mkKey u n) info }

/-- What the metadata file read yields before `json.load` is interpreted:
the file is missing, present but not valid JSON, or a valid mapping. -/
inductive FileState where
  | missing
  | corrupt
  | valid (m : Metadata)
deriving Repr, DecidableEq

/-- `BackupManager.load_metadata` (lines 106-115).  First component: the
mapping `self.metadata` is set to.  Second component: the warning lines the
function prints.  A missing file takes the `else` branch, a corrupt file
takes the bare `except` branch — both set `self.metadata = {}` and print
nothing. -/
def load_metadata : FileState → Metadata × List String
  | .missing => ([], [])
  | .corrupt => ([], [])
  | .valid m => (m, [])

/-- Outcome of trying to run the external `git` process: either the process
could not be started at all (`subprocess` raised, e.g. the binary is
missing), or it started and exited with a code. -/
inductive ProcResult where
  | startFailure (msg : String)
  | exited (code : Nat)
deriving Repr, DecidableEq

/-- `clone_repo_with_progress` (lines 280-306), reduced to its return value:
the whole body is wrapped in `try/except Exception`, so a failure to start
the process is caught and returns `False`, exactly like a process that runs
and exits non-zero; only a zero exit code returns `True`.  (The `clone_url`
and destination path arguments and the progress echoing do not affect the
returned value and are omitted.) -/
def clone_repo_with_progress (repo_name : String) (p : ProcResult) : Bool :=
  match p with
  | .startFailure _ => false
  | .exited code => code == 0

/-- `update_repo` (lines 308-332), reduced to its return value: `True` iff
`git pull --all` exited zero; the `try/except` turns a start failure into
`False`; the "Already up to date" test only changes what is printed. -/
def update_repo (p : ProcResult) : Bool :=
  match p with
  | .startFailure _ => false
  | .exited code => code == 0

/-- Modelled from the spec: the effect on the owner's directory of a `git
clone` that exited zero — the external binary is outside the repository, and
the spec's executor contract (§4.3, §8: a successful clone for X yields
`is_cloned(X) = true`) says the destination then holds a valid checkout, a
directory containing the `.git` marker. -/
def addEntry : List DirEntry → String → List DirEntry
  | [], n => [⟨n, true, true⟩]
  | e :: rest, n => if e.name = n then ⟨n, true, true⟩ :: rest else e :: addEntry rest n

/-- The names of a list of descriptors. -/
def repoNames (l : List Repo) : List String := l.map Repo.name

/-- The `to_clone` list built by the classification loops (gitnav.py lines
344-351 and 482-489): the repositories for which `is_repo_cloned` is false,
in input order. -/
def to_clone (fs : FS) (repos : List Repo) : List Repo :=
  repos.filter (fun r => !(is_repo_cloned_val fs r.name))

/-- The `already_cloned` / `to_update` list built by the same loops: the
repositories for which `is_repo_cloned` is true, in input order. -/
def to_update (fs : FS) (repos : List Repo) : List Repo :=
  repos.filter (fun r => is_repo_cloned_val fs r.name)

/-- `backed_up_repos` (gitnav.py lines 492-496): the names of the entries of
`user_dir` that are directories and contain `.git`, guarded by
`user_dir.exists()`. -/
def backed_up_repos (fs : FS) : List String :=
  if fs.userDirExists then
    (fs.entries.filter (fun e => e.isDir && e.hasGit)).map DirEntry.name
  else []

/-- `deleted_repos = backed_up_repos - current_repos` (lines 498-499): local
marker-valid directory names with no matching remote descriptor. -/
def deleted_repos (fs : FS) (repos : List Repo) : List String :=
  (backed_up_repos fs).filter (fun n => !(repos.any (fun r => r.name == n)))

/-- The summary a batch accumulates: the `successful` and `failed` counters
and the names of the items reported as failed (lines 381-417, 440-465). -/
structure BatchResult where
  successful : Nat
  failed : Nat
  failedNames : List String
deriving Repr, DecidableEq

/-- Processing one completed clone future (lines 397-417): on success the
checkout now exists on disk (see `addEntry`) and `update_repo_info` stores a
fresh record whose `cloned_at` and `last_updated` are the current time; on
failure (or a raised exception) only the `failed` counter moves and the name
is reported. -/
def processCloneResult (u now : String) (proc : Repo → ProcResult)
    (acc : State × BatchResult) (r : Repo) : State × BatchResult :=
  if clone_repo_with_progress r.name (proc r) then
    let s1 : State := { acc.1 with fs := { acc.1.fs with entries := addEntry acc.1.fs.entries r.name } }
    let info : RepoInfo :=
      { cloned_at := some now, last_updated := some now, size := some r.size,
        language := r.language, description := r.description,
        clone_url := some r.clone_url }
    (update_repo_info u r.name info s1,
     { acc.2 with successful := acc.2.successful + 1 })
  else
    (acc.1, { acc.2 with
              failed := acc.2.failed + 1
              failedNames := acc.2.failedNames ++ [r.name] })

/-- The clone batch of `backup_all_repos` (lines 384-417): every item of
`to_clone` is submitted and every completed future is counted exactly once. -/
def runCloneBatch (u now : String) (proc : Repo → ProcResult)
    (items : List Repo) (s : State) : State × BatchResult :=
  items.foldl (processCloneResult u now proc) (s, ⟨0, 0, []⟩)

/-- Processing one completed update future (lines 452-465): on success the
stored record (or the empty dict) gets `last_updated` refreshed and is
written back; on failure only the counter moves — the failing name was
printed by `update_repo` itself (line 327). -/
def processUpdateResult (u now : String) (proc : Repo → ProcResult)
    (acc : State × BatchResult) (r : Repo) : State × BatchResult :=
  if update_repo (proc r) then
    let info := get_repo_info u r.name acc.1
    (update_repo_info u r.name { info with last_updated := some now } acc.1,
     { acc.2 with successful := acc.2.successful + 1 })
  else
    (acc.1, { acc.2 with
              failed := acc.2.failed + 1
              failedNames := acc.2.failedNames ++ [r.name] })

/-- `update_all_cloned_repos` (lines 433-472): create the user directory,
submit only the repositories whose local path exists (line 448 — an item
whose path is missing is neither submitted nor counted), then process every
completed future. -/
def update_all_cloned_repos (u now : String) (proc : Repo → ProcResult)
    (repos : List Repo) (s : State) : State × BatchResult :=
  let s1 := get_user_backup_dir s
  let submitted := repos.filter (fun r => (entryFor s1.fs.entries r.name).isSome)
  submitted.foldl (processUpdateResult u now proc) (s1, ⟨0, 0, []⟩)

/-- `backup_all_repos` (lines 334-431).  `confirm` is the answer to
"Proceed with backup?" and `updChoice` the answer to the two "update
existing repositories?" prompts.  An empty `repos` returns at once; the user
directory is created before any prompt; if everything is already cloned the
flow goes straight to the optional update batch; a declined confirmation
returns with no batch run; otherwise the clone batch runs, optionally
followed by the update batch over the already-cloned items.  The second
component is the clone batch's summary, `none` when no clone batch ran. -/
def backup_all_repos (u now : String) (cloneProc updProc : Repo → ProcResult)
    (repos : List Repo) (confirm updChoice : Bool) (s : State) :
    State × Option BatchResult :=
  if repos.isEmpty then (s, none)
  else
    let s1 := get_user_backup_dir s
    let toClone := to_clone s1.fs repos
    let alreadyCloned := to_update s1.fs repos
    if toClone.isEmpty then
      if updChoice then ((update_all_cloned_repos u now updProc alreadyCloned s1).1, none)
      else (s1, none)
    else if !confirm then (s1, none)
    else
      let r2 := runCloneBatch u now cloneProc toClone s1
      if !alreadyCloned.isEmpty && updChoice then
        ((update_all_cloned_repos u now updProc alreadyCloned r2.1).1, some r2.2)
      else (r2.1, some r2.2)

/-- `sync_backup` (lines 474-532).  Creates the user directory, classifies,
computes the orphan names (always printed, second component), returns before
any prompt when there is nothing to do, returns after a declined
confirmation, and otherwise runs the clone batch (through
`backup_all_repos`, which prompts again: `confirmBackup`, `updChoice`) and
then the update batch. -/
def sync_backup (u now : String) (cloneProc updProc : Repo → ProcResult)
    (repos : List Repo) (confirmSync confirmBackup updChoice : Bool)
    (s : State) : State × List String :=
  let s1 := get_user_backup_dir s
  let toClone := to_clone s1.fs repos
  let toUpdate := to_update s1.fs repos
  let deleted := deleted_repos s1.fs repos
  if toClone.isEmpty && toUpdate.isEmpty then (s1, deleted)
  else if !confirmSync then (s1, deleted)
  else
    let s2 := if toClone.isEmpty then s1
      else (backup_all_repos u now cloneProc updProc toClone confirmBackup updChoice s1).1
    let s3 := if toUpdate.isEmpty then s2
      else (update_all_cloned_repos u now updProc toUpdate s2).1
    (s3, deleted)

/-! ### Basic lemmas about the store and the directory listing -/

theorem mkKey_inj {u a b : String} (h : mkKey u a = mkKey u b) : a = b := by
  have hd := congrArg String.data h
  simp only [mkKey, String.data_append, List.append_assoc,
    List.append_cancel_left_eq] at hd
  exact String.ext hd

theorem lookupMeta_insertMeta_self (m : Metadata) (k : String) (v : RepoInfo) :
    lookupMeta (insertMeta m k v) k = some v := by
  induction m with
  | nil => simp [insertMeta, lookupMeta]
  | cons p rest ih =>
    by_cases h : p.1 = k
    · simp [insertMeta, lookupMeta, h]
    · simp [insertMeta, lookupMeta, h, ih]

theorem lookupMeta_insertMeta_ne (m : Metadata) {k k' : String} (v : RepoInfo)
    (h : k' ≠ k) : lookupMeta (insertMeta m k v) k' = lookupMeta m k' := by
  induction m with
  | nil => simp [insertMeta, lookupMeta, Ne.symm h]
  | cons p rest ih =>
    by_cases hp : p.1 = k
    · subst hp
      simp [insertMeta, lookupMeta, Ne.symm h]
    · by_cases hp' : p.1 = k'
      · simp [insertMeta, lookupMeta, hp, hp', h]
      · simp [insertMeta, lookupMeta, hp, hp', ih]

theorem entryFor_addEntry_self (es : List DirEntry) (n : String) :
    entryFor (addEntry es n) n = some ⟨n, true, true⟩ := by
  induction es with
  | nil => simp [addEntry, entryFor]
  | cons e rest ih =>
    by_cases h : e.name = n
    · simp [addEntry, entryFor, h]
    · simp [addEntry, entryFor, h, ih]

theorem entryFor_addEntry_ne (es : List DirEntry) {n m : String}
    (h : m ≠ n) : entryFor (addEntry es n) m = entryFor es m := by
  induction es with
  | nil => simp [addEntry, entryFor, Ne.symm h]
  | cons e rest ih =>
    by_cases he : e.name = n
    · subst he
      simp [addEntry, entryFor, Ne.symm h]
    · by_cases he' : e.name = m
      · simp [addEntry, entryFor, he, he', h]
      · simp [addEntry, entryFor, he, he', ih]

/-! ### C1: one classification pass partitions the work -/

/-- C1.  For every remote list and local filesystem state, the
classification pass puts a repository in `to_clone` exactly when
`is_repo_cloned` is false for it and in `to_update` exactly when it is true;
the two name sets are disjoint and their union is exactly the remote names;
`deleted_repos` (the orphans) is exactly the marker-valid local directory
names minus the remote names, and is disjoint from both. -/
theorem classification_partition (fs : FS) (repos : List Repo) :
    (∀ r : Repo, r ∈ to_clone fs repos ↔ r ∈ repos ∧ is_repo_cloned_val fs r.name = false)
  ∧ (∀ r : Repo, r ∈ to_update fs repos ↔ r ∈ repos ∧ is_repo_cloned_val fs r.name = true)
  ∧ (∀ n : String, ¬(n ∈ repoNames (to_clone fs repos) ∧ n ∈ repoNames (to_update fs repos)))
  ∧ (∀ n : String,
      (n ∈ repoNames (to_clone fs repos) ∨ n ∈ repoNames (to_update fs repos))
        ↔ n ∈ repoNames repos)
  ∧ (∀ n : String, n ∈ deleted_repos fs repos
        ↔ n ∈ backed_up_repos fs ∧ ¬ n ∈ repoNames repos)
  ∧ (∀ n : String, n ∈ deleted_repos fs repos →
        ¬ n ∈ repoNames (to_clone fs repos) ∧ ¬ n ∈ repoNames (to_update fs repos)) := by
  have hclone : ∀ r : Repo, r ∈ to_clone fs repos ↔
      r ∈ repos ∧ is_repo_cloned_val fs r.name = false := by
    intro r
    simp [to_clone, List.mem_filter]
  have hupd : ∀ r : Repo, r ∈ to_update fs repos ↔
      r ∈ repos ∧ is_repo_cloned_val fs r.name = true := by
    intro r
    simp [to_update, List.mem_filter]
  have hnames : ∀ n : String, n ∈ repoNames repos ↔ ∃ r ∈ repos, r.name = n := by
    intro n
    simp [repoNames, List.mem_map]
  have hdisj : ∀ n : String,
      ¬(n ∈ repoNames (to_clone fs repos) ∧ n ∈ repoNames (to_update fs repos)) := by
    intro n hn
    obtain ⟨h1, h2⟩ := hn
    simp only [repoNames, List.mem_map] at h1 h2
    obtain ⟨r1, hr1, hn1⟩ := h1
    obtain ⟨r2, hr2, hn2⟩ := h2
    have e1 := ((hclone r1).1 hr1).2
    have e2 := ((hupd r2).1 hr2).2
    rw [hn1] at e1
    rw [hn2] at e2
    rw [e2] at e1
    exact absurd e1 (by decide)
  have hunion : ∀ n : String,
      (n ∈ repoNames (to_clone fs repos) ∨ n ∈ repoNames (to_update fs repos))
        ↔ n ∈ repoNames repos := by
    intro n
    constructor
    · rintro (h | h) <;>
      · simp only [repoNames, List.mem_map] at h ⊢
        obtain ⟨r, hr, hn⟩ := h
        exact ⟨r, List.mem_of_mem_filter hr, hn⟩
    · intro h
      simp only [repoNames, List.mem_map] at h
      obtain ⟨r, hr, hn⟩ := h
      by_cases hc : is_repo_cloned_val fs r.name
      · right
        simp only [repoNames, List.mem_map]
        exact ⟨r, (hupd r).2 ⟨hr, hc⟩, hn⟩
      · left
        simp only [repoNames, List.mem_map]
        exact ⟨r, (hclone r).2 ⟨hr, by simpa using hc⟩, hn⟩
  have hdel : ∀ n : String, n ∈ deleted_repos fs repos
      ↔ n ∈ backed_up_repos fs ∧ ¬ n ∈ repoNames repos := by
    intro n
    simp only [deleted_repos, List.mem_filter, Bool.not_eq_eq_eq_not, Bool.not_true,
      List.any_eq_false, beq_iff_eq, hnames]
    constructor
    · rintro ⟨hb, hall⟩
      refine ⟨hb, ?_⟩
      rintro ⟨r, hr, hrn⟩
      exact hall r hr hrn
    · rintro ⟨hb, hnone⟩
      refine ⟨hb, ?_⟩
      intro r hr hrn
      exact hnone ⟨r, hr, hrn⟩
  refine ⟨hclone, hupd, hdisj, hunion, hdel, ?_⟩
  intro n hn
  have hnot := ((hdel n).1 hn).2
  constructor
  · intro hc
    exact hnot ((hunion n).1 (Or.inl hc))
  · intro hc
    exact hnot ((hunion n).1 (Or.inr hc))

/-! ### C4: loading metadata is never fatal, but logs nothing -/

/-- C4 counterexample.  On a corrupt metadata file the store is set to the
empty mapping, but the list of warning lines printed is empty: the bare
`except` branch of `load_metadata` (gitnav.py lines 112-113) logs no
warning, refuting the claim's "logs a warning". -/
theorem load_metadata_corrupt_no_warning :
    (load_metadata FileState.corrupt).1 = [] ∧ (load_metadata FileState.corrupt).2 = [] :=
  ⟨rfl, rfl⟩

/-- C4 as amended.  On a missing metadata file or one that fails to parse,
`load_metadata` sets the store to the empty mapping and returns normally
(loading is never fatal); it does not log any warning. -/
theorem load_metadata_never_fatal :
    load_metadata FileState.missing = ([], []) ∧ load_metadata FileState.corrupt = ([], []) :=
  ⟨rfl, rfl⟩

/-! ### C5: a missing binary is not surfaced as a distinct condition -/

/-- C5 counterexample.  When the version-control binary cannot be started at
all, `clone_repo_with_progress` returns exactly the same value (`false`) as
for a process that starts and exits non-zero: the `try/except Exception`
wrapper (gitnav.py lines 282, 304-306) converts the start failure into the
ordinary failure outcome, so the caller sees nothing distinct and nothing is
propagated. -/
theorem clone_start_failure_indistinct :
    clone_repo_with_progress "repo" (ProcResult.startFailure "git binary missing")
      = clone_repo_with_progress "repo" (ProcResult.exited 1) := rfl

/-- C5 as amended.  A failure to start the external binary is caught inside
`clone_repo_with_progress` and surfaced to the caller as the same `false`
outcome as a process that exits non-zero; it is not a distinct condition and
aborts nothing beyond that one item. -/
theorem clone_start_failure_amended (repo_name msg : String) :
    clone_repo_with_progress repo_name (ProcResult.startFailure msg) = false
  ∧ clone_repo_with_progress repo_name (ProcResult.startFailure msg)
      = clone_repo_with_progress repo_name (ProcResult.exited 1) :=
  ⟨rfl, rfl⟩

/-! ### Frame lemmas for the batch folds -/

theorem processCloneResult_frame (u now : String) (proc : Repo → ProcResult)
    (acc : State × BatchResult) (r : Repo) {n : String} (h : r.name ≠ n) :
    entryFor (processCloneResult u now proc acc r).1.fs.entries n
      = entryFor acc.1.fs.entries n
  ∧ lookupMeta (processCloneResult u now proc acc r).1.metadata (mkKey u n)
      = lookupMeta acc.1.metadata (mkKey u n) := by
  have hkey : mkKey u n ≠ mkKey u r.name := fun he => h (mkKey_inj he).symm
  by_cases hc : clone_repo_with_progress r.name (proc r)
  · constructor
    · simp [processCloneResult, hc, update_repo_info,
        entryFor_addEntry_ne _ (Ne.symm h)]
    · simp [processCloneResult, hc, update_repo_info,
        lookupMeta_insertMeta_ne _ _ hkey]
  · simp [processCloneResult, hc]

theorem processCloneResult_success (u now : String) (proc : Repo → ProcResult)
    (acc : State × BatchResult) (r : Repo)
    (h : clone_repo_with_progress r.name (proc r) = true) :
    entryFor (processCloneResult u now proc acc r).1.fs.entries r.name
      = some ⟨r.name, true, true⟩
  ∧ lookupMeta (processCloneResult u now proc acc r).1.metadata (mkKey u r.name)
      = some ⟨some now, some now, some r.size, r.language, r.description,
              some r.clone_url⟩ := by
  constructor
  · simp [processCloneResult, h, update_repo_info, entryFor_addEntry_self]
  · simp [processCloneResult, h, update_repo_info, lookupMeta_insertMeta_self]

theorem processCloneResult_failure (u now : String) (proc : Repo → ProcResult)
    (acc : State × BatchResult) (r : Repo)
    (h : clone_repo_with_progress r.name (proc r) = false) :
    (processCloneResult u now proc acc r).1 = acc.1 := by
  simp [processCloneResult, h]

theorem foldl_clone_frame (u now : String) (proc : Repo → ProcResult)
    (l : List Repo) {n : String} (h : ∀ r ∈ l, r.name ≠ n)
    (acc : State × BatchResult) :
    entryFor ((l.foldl (processCloneResult u now proc) acc).1.fs.entries) n
      = entryFor acc.1.fs.entries n
  ∧ lookupMeta ((l.foldl (processCloneResult u now proc) acc).1.metadata) (mkKey u n)
      = lookupMeta acc.1.metadata (mkKey u n) := by
  induction l generalizing acc with
  | nil => exact ⟨rfl, rfl⟩
  | cons r rest ih =>
    have hr : r.name ≠ n := h r (List.mem_cons_self r rest)
    have step := processCloneResult_frame u now proc acc r hr
    have ihr := ih (fun x hx => h x (List.mem_cons_of_mem r hx))
      (processCloneResult u now proc acc r)
    simp only [List.foldl_cons]
    exact ⟨ihr.1.trans step.1, ihr.2.trans step.2⟩

theorem processUpdateResult_fs (u now : String) (proc : Repo → ProcResult)
    (acc : State × BatchResult) (r : Repo) :
    (processUpdateResult u now proc acc r).1.fs = acc.1.fs := by
  by_cases hc : update_repo (proc r)
  · simp [processUpdateResult, hc, update_repo_info]
  · simp [processUpdateResult, hc]

theorem processUpdateResult_meta_frame (u now : String) (proc : Repo → ProcResult)
    (acc : State × BatchResult) (r : Repo) {n : String} (h : r.name ≠ n) :
    lookupMeta (processUpdateResult u now proc acc r).1.metadata (mkKey u n)
      = lookupMeta acc.1.metadata (mkKey u n) := by
  have hkey : mkKey u n ≠ mkKey u r.name := fun he => h (mkKey_inj he).symm
  by_cases hc : update_repo (proc r)
  · simp [processUpdateResult, hc, update_repo_info,
      lookupMeta_insertMeta_ne _ _ hkey]
  · simp [processUpdateResult, hc]

theorem foldl_update_frame (u now : String) (proc : Repo → ProcResult)
    (l : List Repo) {n : String} (h : ∀ r ∈ l, r.name ≠ n)
    (acc : State × BatchResult) :
    ((l.foldl (processUpdateResult u now proc) acc).1.fs = acc.1.fs)
  ∧ lookupMeta ((l.foldl (processUpdateResult u now proc) acc).1.metadata) (mkKey u n)
      = lookupMeta acc.1.metadata (mkKey u n) := by
  induction l generalizing acc with
  | nil => exact ⟨rfl, rfl⟩
  | cons r rest ih =>
    have hr : r.name ≠ n := h r (List.mem_cons_self r rest)
    have ihr := ih (fun x hx => h x (List.mem_cons_of_mem r hx))
      (processUpdateResult u now proc acc r)
    simp only [List.foldl_cons]
    exact ⟨ihr.1.trans (processUpdateResult_fs u now proc acc r),
      ihr.2.trans (processUpdateResult_meta_frame u now proc acc r hr)⟩

/-! ### C2: a successful clone records the repository -/

/-- C2.  If the clone of `X` succeeds (the external process exits zero),
then after the batch `is_repo_cloned` answers true for `X` and the metadata
store holds a record under `"owner/X"` whose `cloned_at` field is set.  The
`Nodup` hypothesis is the remote directory provider's contract that names
are unique per owner. -/
theorem clone_success_records (u now : String) (proc : Repo → ProcResult)
    (items : List Repo) (s : State) (X : Repo)
    (hmem : X ∈ items) (hnd : (items.map Repo.name).Nodup)
    (hsucc : clone_repo_with_progress X.name (proc X) = true) :
    (is_repo_cloned (runCloneBatch u now proc items s).1 X.name).1 = true
  ∧ ∃ info : RepoInfo,
      lookupMeta (runCloneBatch u now proc items s).1.metadata (mkKey u X.name)
        = some info
      ∧ info.cloned_at = some now := by
  obtain ⟨l1, l2, rfl⟩ := List.append_of_mem hmem
  have hx2 : X.name ∉ l2.map Repo.name := by
    simp only [List.map_append, List.map_cons, List.nodup_append] at hnd
    exact (List.nodup_cons.1 hnd.2.1).1
  have hl2 : ∀ r ∈ l2, r.name ≠ X.name := by
    intro r hr he
    exact hx2 (he ▸ List.mem_map_of_mem Repo.name hr)
  unfold runCloneBatch
  rw [List.foldl_append, List.foldl_cons]
  have hstep := processCloneResult_success u now proc
    (l1.foldl (processCloneResult u now proc) (s, ⟨0, 0, []⟩)) X hsucc
  have hframe := foldl_clone_frame u now proc l2 hl2
    (processCloneResult u now proc
      (l1.foldl (processCloneResult u now proc) (s, ⟨0, 0, []⟩)) X)
  constructor
  · have hent := hframe.1.trans hstep.1
    simp [is_repo_cloned, is_repo_cloned_val, get_user_backup_dir, hent]
  · exact ⟨_, hframe.2.trans hstep.2, rfl⟩

/-- C2 witness: a one-repository batch whose clone exits zero, run from an
empty state. -/
theorem clone_success_records_witness :
    (⟨"r1", "url1", 5, none, none⟩ : Repo) ∈ ([⟨"r1", "url1", 5, none, none⟩] : List Repo)
  ∧ (([⟨"r1", "url1", 5, none, none⟩] : List Repo).map Repo.name).Nodup
  ∧ clone_repo_with_progress "r1" ((fun _ => ProcResult.exited 0) (⟨"r1", "url1", 5, none, none⟩ : Repo)) = true
  ∧ ((is_repo_cloned (runCloneBatch "alice" "t0" (fun _ => ProcResult.exited 0)
        [⟨"r1", "url1", 5, none, none⟩] ⟨⟨false, []⟩, []⟩).1 "r1").1 = true
    ∧ ∃ info : RepoInfo,
        lookupMeta (runCloneBatch "alice" "t0" (fun _ => ProcResult.exited 0)
          [⟨"r1", "url1", 5, none, none⟩] ⟨⟨false, []⟩, []⟩).1.metadata (mkKey "alice" "r1")
          = some info
        ∧ info.cloned_at = some "t0") :=
  ⟨by decide, by decide, by decide,
    clone_success_records "alice" "t0" (fun _ => ProcResult.exited 0)
      [⟨"r1", "url1", 5, none, none⟩] ⟨⟨false, []⟩, []⟩ ⟨"r1", "url1", 5, none, none⟩
      (by decide) (by decide) (by decide)⟩

/-! ### C3: a failed clone writes no record -/

/-- C3.  If the clone of `X` fails (non-zero exit or a raised exception —
both make `clone_repo_with_progress` return false), then after the batch the
metadata store is unchanged at key `"owner/X"`: no record is created or
modified for that repository. -/
theorem clone_failure_preserves_record (u now : String) (proc : Repo → ProcResult)
    (items : List Repo) (s : State) (X : Repo)
    (hmem : X ∈ items) (hnd : (items.map Repo.name).Nodup)
    (hfail : clone_repo_with_progress X.name (proc X) = false) :
    lookupMeta (runCloneBatch u now proc items s).1.metadata (mkKey u X.name)
      = lookupMeta s.metadata (mkKey u X.name) := by
  obtain ⟨l1, l2, rfl⟩ := List.append_of_mem hmem
  simp only [List.map_append, List.map_cons, List.nodup_append] at hnd
  have hx2 : X.name ∉ l2.map Repo.name := (List.nodup_cons.1 hnd.2.1).1
  have hx1 : X.name ∉ l1.map Repo.name := by
    intro hin
    exact hnd.2.2 hin (List.mem_cons_self _ _)
  have hl2 : ∀ r ∈ l2, r.name ≠ X.name := by
    intro r hr he
    exact hx2 (he ▸ List.mem_map_of_mem Repo.name hr)
  have hl1 : ∀ r ∈ l1, r.name ≠ X.name := by
    intro r hr he
    exact hx1 (he ▸ List.mem_map_of_mem Repo.name hr)
  unfold runCloneBatch
  rw [List.foldl_append, List.foldl_cons]
  have h1 := foldl_clone_frame u now proc l1 hl1 (s, ⟨0, 0, []⟩)
  have hstep := processCloneResult_failure u now proc
    (l1.foldl (processCloneResult u now proc) (s, ⟨0, 0, []⟩)) X hfail
  have h2 := foldl_clone_frame u now proc l2 hl2
    (processCloneResult u now proc
      (l1.foldl (processCloneResult u now proc) (s, ⟨0, 0, []⟩)) X)
  calc lookupMeta ((l2.foldl (processCloneResult u now proc)
          (processCloneResult u now proc
            (l1.foldl (processCloneResult u now proc) (s, ⟨0, 0, []⟩)) X)).1.metadata)
        (mkKey u X.name)
      = lookupMeta (processCloneResult u now proc
          (l1.foldl (processCloneResult u now proc) (s, ⟨0, 0, []⟩)) X).1.metadata
        (mkKey u X.name) := h2.2
    _ = lookupMeta (l1.foldl (processCloneResult u now proc) (s, ⟨0, 0, []⟩)).1.metadata
        (mkKey u X.name) := by rw [hstep]
    _ = lookupMeta s.metadata (mkKey u X.name) := h1.2

/-- C3 witness: a two-repository batch in which the second clone exits
non-zero starting from a store that already holds an unrelated record; the
failing repository's key is untouched. -/
theorem clone_failure_preserves_record_witness :
    (⟨"bad", "urlb", 7, none, none⟩ : Repo)
        ∈ ([⟨"good", "urlg", 1, none, none⟩, ⟨"bad", "urlb", 7, none, none⟩] : List Repo)
  ∧ (([⟨"good", "urlg", 1, none, none⟩, ⟨"bad", "urlb", 7, none, none⟩] : List Repo).map Repo.name).Nodup
  ∧ clone_repo_with_progress "bad"
      ((fun r : Repo => if r.name == "bad" then ProcResult.exited 128 else ProcResult.exited 0)
        (⟨"bad", "urlb", 7, none, none⟩ : Repo)) = false
  ∧ lookupMeta (runCloneBatch "alice" "t0"
        (fun r : Repo => if r.name == "bad" then ProcResult.exited 128 else ProcResult.exited 0)
        [⟨"good", "urlg", 1, none, none⟩, ⟨"bad", "urlb", 7, none, none⟩]
        ⟨⟨true, []⟩, []⟩).1.metadata (mkKey "alice" "bad")
      = lookupMeta ([] : Metadata) (mkKey "alice" "bad") :=
  ⟨by decide, by decide, by decide,
    clone_failure_preserves_record "alice" "t0"
      (fun r : Repo => if r.name == "bad" then ProcResult.exited 128 else ProcResult.exited 0)
      [⟨"good", "urlg", 1, none, none⟩, ⟨"bad", "urlb", 7, none, none⟩]
      ⟨⟨true, []⟩, []⟩ ⟨"bad", "urlb", 7, none, none⟩
      (by decide) (by decide) (by decide)⟩

/-! ### C6: a declined confirmation — which side effects remain? -/

/-- C6 counterexample.  Both entry points call `get_user_backup_dir` before
the confirmation prompt, so a run in which the user declines still creates
`backup_dir/username` when it did not exist: starting from a state with no
per-owner directory, a declined sync ends with the directory present — the
local backup directory tree was changed by the invocation, refuting "no side
effects". -/
theorem sync_cancelled_creates_dir :
    ((sync_backup "alice" "t0" (fun _ => ProcResult.exited 0) (fun _ => ProcResult.exited 0)
        [⟨"a", "urla", 0, none, none⟩] false true true ⟨⟨false, []⟩, []⟩).1).fs.userDirExists = true
  ∧ (State.mk ⟨false, []⟩ []).fs.userDirExists = false := by decide

/-- C6 as amended.  A declined confirmation terminates the run with no clone
or update executed and the resulting state is exactly `get_user_backup_dir`
of the initial state: the metadata store and the directory entries are
unchanged, but the per-owner backup directory has been created when absent
(that creation happens before the prompt).  This holds for the sync entry
point whenever its prompt is reached, and for the backup entry point
whenever its prompt is reached. -/
theorem cancelled_no_further_effects (u now : String)
    (cp up : Repo → ProcResult) (repos : List Repo) (cb uc : Bool) (s : State) :
    ((get_user_backup_dir s).metadata = s.metadata
      ∧ (get_user_backup_dir s).fs.entries = s.fs.entries)
  ∧ (((to_clone (get_user_backup_dir s).fs repos).isEmpty = false
        ∨ (to_update (get_user_backup_dir s).fs repos).isEmpty = false) →
      (sync_backup u now cp up repos false cb uc s).1 = get_user_backup_dir s)
  ∧ (repos.isEmpty = false →
      (to_clone (get_user_backup_dir s).fs repos).isEmpty = false →
      (backup_all_repos u now cp up repos false uc s).1 = get_user_backup_dir s) := by
  refine ⟨⟨rfl, rfl⟩, ?_, ?_⟩
  · intro h
    rcases h with h | h <;> simp [sync_backup, h]
  · intro h1 h2
    simp [backup_all_repos, h1, h2]

/-- C6 amended witness: one uncloned repository, prompt declined, from an
empty state. -/
theorem cancelled_no_further_effects_witness :
    (to_clone (get_user_backup_dir ⟨⟨false, []⟩, []⟩).fs
        [⟨"a", "urla", 0, none, none⟩]).isEmpty = false
  ∧ (sync_backup "alice" "t0" (fun _ => ProcResult.exited 0) (fun _ => ProcResult.exited 0)
        [⟨"a", "urla", 0, none, none⟩] false true true ⟨⟨false, []⟩, []⟩).1
      = get_user_backup_dir ⟨⟨false, []⟩, []⟩ :=
  ⟨by decide,
    (cancelled_no_further_effects "alice" "t0" (fun _ => ProcResult.exited 0)
      (fun _ => ProcResult.exited 0) [⟨"a", "urla", 0, none, none⟩] true true
      ⟨⟨false, []⟩, []⟩).2.1 (Or.inl (by decide))⟩

/-! ### C7: batch accounting -/

theorem foldl_clone_counts (u now : String) (proc : Repo → ProcResult)
    (l : List Repo) (acc : State × BatchResult) :
    (l.foldl (processCloneResult u now proc) acc).2.successful
      + (l.foldl (processCloneResult u now proc) acc).2.failed
      = acc.2.successful + acc.2.failed + l.length := by
  induction l generalizing acc with
  | nil => simp
  | cons r rest ih =>
    simp only [List.foldl_cons, List.length_cons]
    rw [ih]
    by_cases hc : clone_repo_with_progress r.name (proc r) <;>
      simp [processCloneResult, hc] <;> omega

theorem foldl_clone_failedNames (u now : String) (proc : Repo → ProcResult)
    (l : List Repo) (acc : State × BatchResult)
    (h : acc.2.failedNames.length = acc.2.failed) :
    (l.foldl (processCloneResult u now proc) acc).2.failedNames.length
      = (l.foldl (processCloneResult u now proc) acc).2.failed := by
  induction l generalizing acc with
  | nil => exact h
  | cons r rest ih =>
    simp only [List.foldl_cons]
    refine ih _ ?_
    by_cases hc : clone_repo_with_progress r.name (proc r) <;>
      simp [processCloneResult, hc, h]

theorem foldl_update_counts (u now : String) (proc : Repo → ProcResult)
    (l : List Repo) (acc : State × BatchResult) :
    (l.foldl (processUpdateResult u now proc) acc).2.successful
      + (l.foldl (processUpdateResult u now proc) acc).2.failed
      = acc.2.successful + acc.2.failed + l.length := by
  induction l generalizing acc with
  | nil => simp
  | cons r rest ih =>
    simp only [List.foldl_cons, List.length_cons]
    rw [ih]
    by_cases hc : update_repo (proc r) <;>
      simp [processUpdateResult, hc] <;> omega

theorem foldl_update_failedNames (u now : String) (proc : Repo → ProcResult)
    (l : List Repo) (acc : State × BatchResult)
    (h : acc.2.failedNames.length = acc.2.failed) :
    (l.foldl (processUpdateResult u now proc) acc).2.failedNames.length
      = (l.foldl (processUpdateResult u now proc) acc).2.failed := by
  induction l generalizing acc with
  | nil => exact h
  | cons r rest ih =>
    simp only [List.foldl_cons]
    refine ih _ ?_
    by_cases hc : update_repo (proc r) <;>
      simp [processUpdateResult, hc, h]

/-- C7 counterexample.  `update_all_cloned_repos` silently drops an item
whose local path does not exist (the `if repo_path.exists()` guard at line
448 skips submission): given one repository and a filesystem with no entry
for it, the batch ends with zero successes, zero failures and no reported
name, although one item was given — the counts do not account for it. -/
theorem update_batch_drops_missing :
    (update_all_cloned_repos "alice" "t0" (fun _ => ProcResult.exited 0)
        [⟨"a", "urla", 0, none, none⟩] ⟨⟨true, []⟩, []⟩).2
      = ⟨0, 0, []⟩
  ∧ ([⟨"a", "urla", 0, none, none⟩] : List Repo).length = 1 := by decide

/-- C7 as amended.  The clone batch counts every item given: successes plus
failures equal the number of items, and every failure contributes exactly
one reported name; a per-item failure never stops the fold.  The update
batch satisfies the same accounting, but only over the items whose local
path exists — an item whose directory is missing is silently skipped
(neither executed, counted, nor reported).  In the calls the program makes,
the update batch only receives items whose path exists, so those calls are
fully accounted. -/
theorem batch_counts (u now : String) (proc : Repo → ProcResult)
    (items : List Repo) (s : State) :
    ((runCloneBatch u now proc items s).2.successful
        + (runCloneBatch u now proc items s).2.failed = items.length
      ∧ (runCloneBatch u now proc items s).2.failedNames.length
        = (runCloneBatch u now proc items s).2.failed)
  ∧ ((update_all_cloned_repos u now proc items s).2.successful
        + (update_all_cloned_repos u now proc items s).2.failed
      = (items.filter
          (fun r => (entryFor (get_user_backup_dir s).fs.entries r.name).isSome)).length
      ∧ (update_all_cloned_repos u now proc items s).2.failedNames.length
        = (update_all_cloned_repos u now proc items s).2.failed) := by
  refine ⟨⟨?_, ?_⟩, ?_, ?_⟩
  · simpa using foldl_clone_counts u now proc items (s, ⟨0, 0, []⟩)
  · exact foldl_clone_failedNames u now proc items (s, ⟨0, 0, []⟩) rfl
  · simpa [update_all_cloned_repos] using
      foldl_update_counts u now proc
        (items.filter
          (fun r => (entryFor (get_user_backup_dir s).fs.entries r.name).isSome))
        (get_user_backup_dir s, ⟨0, 0, []⟩)
  · exact foldl_update_failedNames u now proc
      (items.filter
        (fun r => (entryFor (get_user_backup_dir s).fs.entries r.name).isSome))
      (get_user_backup_dir s, ⟨0, 0, []⟩) rfl

/-! ### C8: orphans are reported and never touched -/

theorem update_all_cloned_repos_eq (u now : String) (proc : Repo → ProcResult)
    (repos : List Repo) (s : State) :
    update_all_cloned_repos u now proc repos s
      = (repos.filter
          (fun r => (entryFor (get_user_backup_dir s).fs.entries r.name).isSome)).foldl
          (processUpdateResult u now proc) (get_user_backup_dir s, ⟨0, 0, []⟩) := rfl

theorem update_all_frame (u now : String) (proc : Repo → ProcResult)
    (repos : List Repo) (s : State) {n : String}
    (h : ∀ r ∈ repos, r.name ≠ n) :
    (update_all_cloned_repos u now proc repos s).1.fs.entries = s.fs.entries
  ∧ lookupMeta (update_all_cloned_repos u now proc repos s).1.metadata (mkKey u n)
      = lookupMeta s.metadata (mkKey u n) := by
  have hsub : ∀ r ∈ repos.filter
      (fun r => (entryFor (get_user_backup_dir s).fs.entries r.name).isSome),
      r.name ≠ n := fun r hr => h r (List.mem_of_mem_filter hr)
  have hf := foldl_update_frame u now proc
    (repos.filter (fun r => (entryFor (get_user_backup_dir s).fs.entries r.name).isSome))
    hsub (get_user_backup_dir s, ⟨0, 0, []⟩)
  rw [update_all_cloned_repos_eq]
  exact ⟨(congrArg FS.entries hf.1).trans rfl, hf.2.trans rfl⟩

theorem runCloneBatch_frame (u now : String) (proc : Repo → ProcResult)
    (items : List Repo) (s : State) {n : String}
    (h : ∀ r ∈ items, r.name ≠ n) :
    entryFor (runCloneBatch u now proc items s).1.fs.entries n
      = entryFor s.fs.entries n
  ∧ lookupMeta (runCloneBatch u now proc items s).1.metadata (mkKey u n)
      = lookupMeta s.metadata (mkKey u n) := by
  have hf := foldl_clone_frame u now proc items h (s, ⟨0, 0, []⟩)
  exact ⟨hf.1, hf.2⟩

theorem backup_all_frame (u now : String) (cp up : Repo → ProcResult)
    (repos : List Repo) (confirm uc : Bool) (s : State) {n : String}
    (h : ∀ r ∈ repos, r.name ≠ n) :
    entryFor (backup_all_repos u now cp up repos confirm uc s).1.fs.entries n
      = entryFor s.fs.entries n
  ∧ lookupMeta (backup_all_repos u now cp up repos confirm uc s).1.metadata (mkKey u n)
      = lookupMeta s.metadata (mkKey u n) := by
  have hclone : ∀ r ∈ to_clone (get_user_backup_dir s).fs repos, r.name ≠ n :=
    fun r hr => h r (List.mem_of_mem_filter hr)
  have hupd : ∀ r ∈ to_update (get_user_backup_dir s).fs repos, r.name ≠ n :=
    fun r hr => h r (List.mem_of_mem_filter hr)
  have hu1 := update_all_frame u now up
    (to_update (get_user_backup_dir s).fs repos) (get_user_backup_dir s) hupd
  have hc1 := runCloneBatch_frame u now cp
    (to_clone (get_user_backup_dir s).fs repos) (get_user_backup_dir s) hclone
  have hu2 := update_all_frame u now up
    (to_update (get_user_backup_dir s).fs repos)
    (runCloneBatch u now cp (to_clone (get_user_backup_dir s).fs repos)
      (get_user_backup_dir s)).1 hupd
  simp only [backup_all_repos]
  split
  · exact ⟨rfl, rfl⟩
  · split
    · split
      · exact ⟨(congrArg (fun es => entryFor es n) hu1.1).trans rfl, hu1.2.trans rfl⟩
      · exact ⟨rfl, rfl⟩
    · split
      · exact ⟨rfl, rfl⟩
      · split
        · exact ⟨((congrArg (fun es => entryFor es n) hu2.1).trans hc1.1).trans rfl,
            (hu2.2.trans hc1.2).trans rfl⟩
        · exact ⟨hc1.1.trans rfl, hc1.2.trans rfl⟩

/-- C8.  In every sync run, a local directory that carries the
version-control marker and matches no remote name is reported among the
orphans, and the run — whatever the confirmations and whatever every clone
or update process does — neither deletes nor modifies that directory entry
and leaves its metadata record untouched. -/
theorem sync_orphan_preserved (u now : String) (cp up : Repo → ProcResult)
    (repos : List Repo) (cS cB uc : Bool) (s : State) (n : String)
    (hb : n ∈ backed_up_repos (get_user_backup_dir s).fs)
    (hn : ¬ n ∈ repoNames repos) :
    n ∈ (sync_backup u now cp up repos cS cB uc s).2
  ∧ entryFor (sync_backup u now cp up repos cS cB uc s).1.fs.entries n
      = entryFor s.fs.entries n
  ∧ lookupMeta (sync_backup u now cp up repos cS cB uc s).1.metadata (mkKey u n)
      = lookupMeta s.metadata (mkKey u n) := by
  have hnames : ∀ r ∈ repos, r.name ≠ n := by
    intro r hr he
    exact hn (he ▸ List.mem_map_of_mem Repo.name hr)
  have hmem : n ∈ deleted_repos (get_user_backup_dir s).fs repos := by
    refine List.mem_filter.2 ⟨hb, ?_⟩
    simp only [Bool.not_eq_eq_eq_not, Bool.not_true, List.any_eq_false, beq_iff_eq]
    exact hnames
  have hclone : ∀ r ∈ to_clone (get_user_backup_dir s).fs repos, r.name ≠ n :=
    fun r hr => hnames r (List.mem_of_mem_filter hr)
  have hupd : ∀ r ∈ to_update (get_user_backup_dir s).fs repos, r.name ≠ n :=
    fun r hr => hnames r (List.mem_of_mem_filter hr)
  have hb1 := backup_all_frame u now cp up
    (to_clone (get_user_backup_dir s).fs repos) cB uc (get_user_backup_dir s) hclone
  have hu1 := update_all_frame u now up
    (to_update (get_user_backup_dir s).fs repos) (get_user_backup_dir s) hupd
  have hu2 := update_all_frame u now up
    (to_update (get_user_backup_dir s).fs repos)
    (backup_all_repos u now cp up (to_clone (get_user_backup_dir s).fs repos) cB uc
      (get_user_backup_dir s)).1 hupd
  simp only [sync_backup]
  split
  · exact ⟨hmem, rfl, rfl⟩
  · split
    · exact ⟨hmem, rfl, rfl⟩
    · refine ⟨hmem, ?_⟩
      split
      · split
        · exact ⟨rfl, rfl⟩
        · exact ⟨hb1.1.trans rfl, hb1.2.trans rfl⟩
      · split
        · exact ⟨(congrArg (fun es => entryFor es n) hu1.1).trans rfl, hu1.2.trans rfl⟩
        · exact ⟨((congrArg (fun es => entryFor es n) hu2.1).trans hb1.1).trans rfl,
            (hu2.2.trans hb1.2).trans rfl⟩

/-- C8 witness: a marker-valid local directory `orphan` with remote list
`[a]`; the sync (all prompts accepted, all processes exit zero) reports it
and leaves its entry and record alone. -/
theorem sync_orphan_preserved_witness :
    "orphan" ∈ backed_up_repos
        (get_user_backup_dir ⟨⟨true, [⟨"orphan", true, true⟩]⟩, []⟩).fs
  ∧ ¬ "orphan" ∈ repoNames [⟨"a", "urla", 0, none, none⟩]
  ∧ ("orphan" ∈ (sync_backup "alice" "t0" (fun _ => ProcResult.exited 0)
        (fun _ => ProcResult.exited 0) [⟨"a", "urla", 0, none, none⟩] true true true
        ⟨⟨true, [⟨"orphan", true, true⟩]⟩, []⟩).2
    ∧ entryFor (sync_backup "alice" "t0" (fun _ => ProcResult.exited 0)
        (fun _ => ProcResult.exited 0) [⟨"a", "urla", 0, none, none⟩] true true true
        ⟨⟨true, [⟨"orphan", true, true⟩]⟩, []⟩).1.fs.entries "orphan"
      = entryFor [⟨"orphan", true, true⟩] "orphan"
    ∧ lookupMeta (sync_backup "alice" "t0" (fun _ => ProcResult.exited 0)
        (fun _ => ProcResult.exited 0) [⟨"a", "urla", 0, none, none⟩] true true true
        ⟨⟨true, [⟨"orphan", true, true⟩]⟩, []⟩).1.metadata (mkKey "alice" "orphan")
      = lookupMeta ([] : Metadata) (mkKey "alice" "orphan")) :=
  ⟨by decide, by decide,
    sync_orphan_preserved "alice" "t0" (fun _ => ProcResult.exited 0)
      (fun _ => ProcResult.exited 0) [⟨"a", "urla", 0, none, none⟩] true true true
      ⟨⟨true, [⟨"orphan", true, true⟩]⟩, []⟩ "orphan" (by decide) (by decide)⟩

/-! ### C10: the `is_repo_cloned` query creates the per-owner directory -/

/-- C10.  The query `is_repo_cloned` has a filesystem write side effect:
after any call the per-owner backup directory exists (it is created via
`get_user_backup_dir` whenever absent), while the directory's entries and
the metadata store are untouched and the returned value is the pure marker
check on that state. -/
theorem is_repo_cloned_creates_user_dir (s : State) (n : String) :
    ((is_repo_cloned s n).2).fs.userDirExists = true
  ∧ ((is_repo_cloned s n).2).fs.entries = s.fs.entries
  ∧ ((is_repo_cloned s n).2).metadata = s.metadata
  ∧ (is_repo_cloned s n).2 = get_user_backup_dir s
  ∧ (is_repo_cloned s n).1 = is_repo_cloned_val (get_user_backup_dir s).fs n :=
  ⟨rfl, rfl, rfl, rfl, rfl⟩

end GitNav
